import Mathlib

/-!
Verification of the note-onset extraction pipeline of
`py_helper/extract_notes.py` (function `detect_note_events` and its
helpers), shallowly embedded over `ℚ` (Python floats are modelled as
exact rationals; exceptions are modelled with `Except String`).

The peak detector the script calls is `scipy.signal.find_peaks` with the
`height`, `prominence` and `distance` keyword arguments; its algorithm
(local-maxima scan with plateau midpoints, then the height filter, then
distance selection by descending height, then the prominence filter) is
embedded here faithfully to the scipy implementation.
-/

namespace NoteExtract

set_option maxRecDepth 1000000

/-- Maximum of two rationals, written out so that it evaluates inside
the kernel. -/
def qmax (a b : ℚ) : ℚ :=
  if a ≤ b then b else a

/-- Minimum of two rationals, written out so that it evaluates inside
the kernel. -/
def qmin (a b : ℚ) : ℚ :=
  if a ≤ b then a else b

/-- Absolute value of a rational, written out so that it evaluates
inside the kernel. -/
def qabs (a : ℚ) : ℚ :=
  if a ≤ 0 then -a else a

/-- Python `int(q)` on a real number: truncation toward zero, computed
on the numerator and denominator. -/
def pyInt (q : ℚ) : ℤ :=
  if 0 ≤ q.num then ((q.num.toNat / q.den : ℕ) : ℤ)
  else -(((-q.num).toNat / q.den : ℕ) : ℤ)

/-- Index tracking for `np.argmin`: first index of the minimum value.
`i` is the index of the next element, `bi`/`bv` the best index and value
so far; a later element replaces the best only when strictly smaller. -/
def argminAux : List ℚ → ℕ → ℕ → ℚ → ℕ
  | [], _, bi, _ => bi
  | v :: rest, i, bi, bv =>
      if v < bv then argminAux rest (i + 1) i v
      else argminAux rest (i + 1) bi bv

/-- Models `np.argmin(np.abs(freqs_hz - pf))` from `map_notes_to_bins`
(line 106): the first index of `f` minimising the absolute difference
to `pf`.  Total function; `detect_note_events` reports the empty-axis
failure separately (numpy raises there). -/
def argminAbsDiff (f : List ℚ) (pf : ℚ) : ℕ :=
  match f.map (fun x => qabs (x - pf)) with
  | [] => 0
  | v :: rest => argminAux rest 1 0 v

/-- Models lines 145-146 of `extract_notes.py`:
`onset_strength = np.maximum(np.diff(magnitudes, prepend=0), 0)`.
`np.diff` with `prepend=0` subtracts the shifted sequence `0 :: m`. -/
def onsetStrength (m : List ℚ) : List ℚ :=
  (List.zipWith (fun a b => a - b) m (0 :: m)).map (fun v => qmax v 0)

/-- Stable insertion, generic in the strict precedence test `p`:
`p b a` means `b` must stay strictly before `a`.  An element is inserted
after every element that strictly precedes it and before the first that
does not, so key-equal elements keep their original relative order. -/
def insertBy (p : α → α → Bool) (a : α) : List α → List α
  | [] => [a]
  | b :: l => if p b a then b :: insertBy p a l else a :: b :: l

/-- Stable sort by the strict precedence test `p`.  Models the stable
Python sorts in `detect_note_events` (list.sort is stable, and the
stable sorted permutation for a given key order is unique, so any
stable sort is extensionally the same function). -/
def sortBy (p : α → α → Bool) : List α → List α
  | [] => []
  | a :: l => insertBy p a (sortBy p l)

/-- Iteration core of the plateau scan of scipy `_local_maxima_1d`:
starting at `ia`, advance while `ia < imax` and `x[ia]` equals the value
`v` of the current sample; returns the first index past the plateau.
The fuel argument is an upper bound on the remaining iterations (the
wrapper passes `imax - ia`, which the loop condition never exceeds); it
makes the recursion structural. -/
def plateauEndGo (x : List ℚ) (imax : ℕ) (v : ℚ) : ℕ → ℕ → ℕ
  | 0, ia => ia
  | fuel + 1, ia =>
      if ia < imax ∧ x.getD ia 0 = v then plateauEndGo x imax v fuel (ia + 1)
      else ia

/-- The plateau scan of scipy `_local_maxima_1d`. -/
def plateauEnd (x : List ℚ) (imax : ℕ) (v : ℚ) (ia : ℕ) : ℕ :=
  plateauEndGo x imax v (imax - ia) ia

/-- Iteration core of the main loop of scipy `_local_maxima_1d` (the
candidate stage of `find_peaks`): scan `i` from 1 while
`i < imax = n - 1`; when `x[i-1] < x[i]`, walk ahead over the plateau of
equal values; if the sample after the plateau is strictly smaller,
record the plateau midpoint `(left + right) / 2` and resume after the
plateau, otherwise advance by one.  The fuel argument is an upper bound
on `imax - i`, making the recursion structural; the scan only stops on
fuel 0 when `i` has already reached `imax`. -/
def lmScanGo (x : List ℚ) (imax : ℕ) : ℕ → ℕ → List ℕ
  | 0, _ => []
  | fuel + 1, i =>
    if i < imax then
      if x.getD (i - 1) 0 < x.getD i 0 then
        let ia := plateauEnd x imax (x.getD i 0) (i + 1)
        if x.getD ia 0 < x.getD i 0 then
          (i + (ia - 1)) / 2 :: lmScanGo x imax fuel (ia + 1)
        else lmScanGo x imax fuel (i + 1)
      else lmScanGo x imax fuel (i + 1)
    else []

/-- Candidate peaks of scipy `find_peaks`: local maxima of the signal,
with flat-topped maxima reported at their plateau midpoint. -/
def localMaxima (x : List ℚ) : List ℕ :=
  lmScanGo x (x.length - 1) (x.length - 1) 1

/-- Models the left while-loop of scipy `_select_by_peak_distance`:
from position `k - 1` downward, clear the keep flag of every peak whose
index is closer than `d` to the current peak index `pj`, stopping at the
first one at least `d` away or at the left end.  The counter argument is
`k` itself so the examined position is `k - 1`. -/
def zeroLeft (pk : List ℕ) (d : ℕ) (pj : ℕ) : ℕ → List Bool → List Bool
  | 0, keep => keep
  | k + 1, keep =>
      if pj - pk.getD k 0 < d then zeroLeft pk d pj k (keep.set k false)
      else keep

/-- Iteration core of the right while-loop of scipy
`_select_by_peak_distance`: from position `k` upward while `k < m`,
clear the keep flag of every peak whose index is closer than `d` to
`pj`, stopping at the first one at least `d` away.  The fuel argument
bounds `m - k` and makes the recursion structural. -/
def zeroRightGo (pk : List ℕ) (d : ℕ) (pj : ℕ) (m : ℕ) :
    ℕ → ℕ → List Bool → List Bool
  | 0, _, keep => keep
  | fuel + 1, k, keep =>
      if k < m then
        if pk.getD k 0 - pj < d then
          zeroRightGo pk d pj m fuel (k + 1) (keep.set k false)
        else keep
      else keep

/-- The right while-loop of scipy `_select_by_peak_distance`. -/
def zeroRight (pk : List ℕ) (d : ℕ) (pj : ℕ) (m : ℕ) (k : ℕ)
    (keep : List Bool) : List Bool :=
  zeroRightGo pk d pj m (m - k) k keep

/-- One iteration of the priority loop of `_select_by_peak_distance`:
if the peak at position `j` is still kept, clear every other peak closer
than `d` samples on its left and right. -/
def sbdStep (pk : List ℕ) (d : ℕ) (keep : List Bool) (j : ℕ) : List Bool :=
  if keep.getD j false then
    zeroRight pk d (pk.getD j 0) pk.length (j + 1)
      (zeroLeft pk d (pk.getD j 0) j keep)
  else keep

/-- Models scipy `_select_by_peak_distance`: visit peak positions in
order of decreasing height (`np.argsort` is stable, so equal heights are
visited right-to-left), each still-kept peak clearing all others closer
than `d` samples; return the kept peak indices in ascending order. -/
def selectByPeakDistance (pk : List ℕ) (hs : List ℚ) (d : ℕ) : List ℕ :=
  let priority := sortBy (fun b a => hs.getD b 0 < hs.getD a 0) (List.range pk.length)
  let keep := priority.reverse.foldl (sbdStep pk d) (List.replicate pk.length true)
  ((List.range pk.length).filter (fun k => keep.getD k false)).map (fun k => pk.getD k 0)

/-- Models the left walk of scipy `_peak_prominences`: from index `i`
downward while the sample is at most the peak value `pv` and the left
border (index 0, no `wlen` is passed) is not reached, accumulating the
minimum sample seen. -/
def leftMinWalk (x : List ℚ) (pv : ℚ) : ℕ → ℚ → ℚ
  | 0, cur => cur
  | i + 1, cur =>
      if x.getD (i + 1) 0 ≤ pv then leftMinWalk x pv i (qmin cur (x.getD i 0))
      else cur

/-- Iteration core of the right walk of scipy `_peak_prominences`:
from index `i` upward while the sample is at most the peak value `pv`
and the right border `imax = n - 1` is not reached, accumulating the
minimum.  The fuel argument bounds `imax - i` and makes the recursion
structural. -/
def rightMinWalkGo (x : List ℚ) (pv : ℚ) (imax : ℕ) : ℕ → ℕ → ℚ → ℚ
  | 0, _, cur => cur
  | fuel + 1, i, cur =>
      if i < imax then
        if x.getD i 0 ≤ pv then
          rightMinWalkGo x pv imax fuel (i + 1) (qmin cur (x.getD (i + 1) 0))
        else cur
      else cur

/-- The right walk of scipy `_peak_prominences`. -/
def rightMinWalk (x : List ℚ) (pv : ℚ) (imax : ℕ) (i : ℕ) (cur : ℚ) : ℚ :=
  rightMinWalkGo x pv imax (imax - i) i cur

/-- Prominence of the sample at index `k`, as computed by scipy
`_peak_prominences` with no window length: the peak value minus the
larger of the two flank minima. -/
def prominenceAt (x : List ℚ) (k : ℕ) : ℚ :=
  let pv := x.getD k 0
  pv - qmax (leftMinWalk x pv k pv) (rightMinWalk x pv (x.length - 1) k pv)

/-- Models `scipy.signal.find_peaks(x, height=ht, prominence=pr,
distance=d)` for an already validated integer `d ≥ 1`: candidate local
maxima (plateau midpoints included), then the inclusive height filter,
then distance selection by descending height, then the inclusive
prominence filter — in that order, as in the scipy source. -/
def findPeaks (x : List ℚ) (ht pr : ℚ) (d : ℕ) : List ℕ :=
  let c1 := (localMaxima x).filter (fun k => ht ≤ x.getD k 0)
  let c2 := selectByPeakDistance c1 (c1.map (fun k => x.getD k 0)) d
  c2.filter (fun k => pr ≤ prominenceAt x k)

/-- A raw onset event as built in the per-pitch loop of
`detect_note_events` (the dict of lines 158-166, including the
temporary `note_idx` key). -/
structure RawEvent where
  time : ℚ
  note : String
  frequency : ℚ
  magnitude : ℚ
  onset_strength : ℚ
  midi : ℕ
  note_idx : ℕ
deriving DecidableEq, Repr

/-- An emitted note event: the raw event with the temporary `note_idx`
key deleted (lines 200-202). -/
structure NoteEvent where
  time : ℚ
  note : String
  frequency : ℚ
  magnitude : ℚ
  onset_strength : ℚ
  midi : ℕ
deriving DecidableEq, Repr

/-- Deletion of the temporary `note_idx` key from a raw event. -/
def stripIdx (e : RawEvent) : NoteEvent :=
  { time := e.time, note := e.note, frequency := e.frequency,
    magnitude := e.magnitude, onset_strength := e.onset_strength,
    midi := e.midi }

/-- The `distance` argument the pipeline passes to `find_peaks`
(line 152): `int(min_note_gap / (t[1] - t[0]))`, truncation toward
zero of the gap divided by the frame period. -/
def distParam (gap frameDt : ℚ) : ℤ :=
  pyInt (gap / frameDt)

/-- The magnitude time series of pitch `idx`: row `note_bins[idx]` of
the spectrogram (`note_series = S[note_bins, :]`, line 136). -/
def noteSeriesAt (S : List (List ℚ)) (noteBins : List ℕ) (idx : ℕ) : List ℚ :=
  S.getD (noteBins.getD idx 0) []

/-- The raw events of pitch `idx` (lines 141-166): peaks of the onset
strength found by `find_peaks`, kept when the magnitude at the peak
frame is at least `minMagnitude`, turned into event records. -/
def rawEventsForNote (S : List (List ℚ)) (t : List ℚ) (noteBins : List ℕ)
    (pianoFreqs : List ℚ) (pianoNames : List String)
    (onsetThreshold peakProminence minMagnitude : ℚ) (dist : ℕ)
    (idx : ℕ) : List RawEvent :=
  let mags := noteSeriesAt S noteBins idx
  let os := onsetStrength mags
  (findPeaks os onsetThreshold peakProminence dist).filterMap (fun k =>
    if minMagnitude ≤ mags.getD k 0 then
      some { time := t.getD k 0,
             note := pianoNames.getD idx "",
             frequency := pianoFreqs.getD idx 0,
             magnitude := mags.getD k 0,
             onset_strength := os.getD k 0,
             midi := idx + 21,
             note_idx := idx }
    else none)

/-- The pooled raw event list `all_events` before sorting: the 88
per-pitch lists concatenated in pitch order (`for note_idx in
range(88)`). -/
def rawEventsOf (S : List (List ℚ)) (t f : List ℚ) (pianoFreqs : List ℚ)
    (pianoNames : List String)
    (onsetThreshold peakProminence minMagnitude : ℚ) (dist : ℕ) : List RawEvent :=
  let noteBins := pianoFreqs.map (argminAbsDiff f)
  (List.range 88).flatMap
    (rawEventsForNote S t noteBins pianoFreqs pianoNames
      onsetThreshold peakProminence minMagnitude dist)

/-- Magnitude maximum of a window,
`max(e['magnitude'] for e in window_events)` (line 187). -/
def maxMagOf : List RawEvent → ℚ
  | [] => 0
  | e :: rest => rest.foldl (fun m x => qmax m x.magnitude) e.magnitude

/-- The strong events of a window: those with magnitude at least 70
percent of the window maximum (line 189). -/
def strongOf (w : List RawEvent) : List RawEvent :=
  w.filter (fun e => maxMagOf w * (7 / 10) ≤ e.magnitude)

/-- Processing of one harmonic-resolver window (lines 186-196): a
window of more than one event keeps its strong events, trimmed to the
top 3 by a stable descending magnitude sort when more than 3 remain; a
window of at most one event is kept unchanged. -/
def selectWindow (w : List RawEvent) : List RawEvent :=
  if 1 < w.length then
    let strong := strongOf w
    if 3 < strong.length then
      (sortBy (fun b a => a.magnitude < b.magnitude) strong).take 3
    else strong
  else w

/-- Iteration core of the forward-chained window scan of the harmonic
resolver (lines 174-183, 198): each window starts at the first
unconsumed event and absorbs the following events whose time is within
(strictly less than) 0.03 s of the window start.  The fuel argument
bounds the list length and makes the recursion structural; it never
runs out when it starts at the list length, because each window
consumes at least its first event. -/
def windowsOfGo : ℕ → List RawEvent → List (List RawEvent)
  | 0, _ => []
  | _, [] => []
  | fuel + 1, e :: rest =>
      (e :: rest.takeWhile (fun x => x.time - e.time < 3 / 100)) ::
        windowsOfGo fuel (rest.dropWhile (fun x => x.time - e.time < 3 / 100))

/-- The window decomposition used by the harmonic resolver. -/
def windowsOf (l : List RawEvent) : List (List RawEvent) :=
  windowsOfGo l.length l

/-- The harmonic-resolver loop (lines 173-198): decompose the event
list into forward-chained windows and concatenate the per-window
selections. -/
def harmonicFilter (l : List RawEvent) : List RawEvent :=
  ((windowsOf l).map selectWindow).flatten

/-- Models `detect_note_events(S, t, f, piano_freqs, piano_names,
onset_threshold, peak_prominence, min_note_gap, min_magnitude)`
(lines 111-204).  Failures raised by the Python code are modelled as
`Except.error`: `np.argmin` on an empty frequency axis (line 106,
reached from line 133), the frame-period access `t[1]` on a time axis
with fewer than two frames (line 152), and the `find_peaks` rejection
of a `distance` below 1 (line 152, raised inside scipy). -/
def detectNoteEvents (S : List (List ℚ)) (t f : List ℚ)
    (pianoFreqs : List ℚ) (pianoNames : List String)
    (onsetThreshold peakProminence minNoteGap minMagnitude : ℚ) :
    Except String (List NoteEvent) :=
  if f = [] then
    .error "ValueError: attempt to get argmin of an empty sequence"
  else if t.length < 2 then
    .error "IndexError: index 1 is out of bounds"
  else if distParam minNoteGap (t.getD 1 0 - t.getD 0 0) < 1 then
    .error "ValueError: distance must be greater or equal to 1"
  else
    let dist := (distParam minNoteGap (t.getD 1 0 - t.getD 0 0)).toNat
    let raw := rawEventsOf S t f pianoFreqs pianoNames
      onsetThreshold peakProminence minMagnitude dist
    let sorted := sortBy (fun b a => b.time < a.time) raw
    .ok ((harmonicFilter sorted).map stripIdx)

/-- The peak-separation parameter as the specification describes it:
`max(1, round(min_note_gap / frame_period))`. -/
def specDistParam (gap frameDt : ℚ) : ℤ :=
  max 1 (round (gap / frameDt))

/-- Candidate peaks as the specification defines them: indices `k`
with `s[k] > s[k-1]` and `s[k] > s[k+1]`; endpoints are never peaks. -/
def strictCandidates (s : List ℚ) : List ℕ :=
  (List.range s.length).filter (fun k =>
    decide (1 ≤ k) && decide (k + 1 < s.length) &&
    decide (s.getD (k - 1) 0 < s.getD k 0) && decide (s.getD (k + 1) 0 < s.getD k 0))

/-- The highest remaining candidate (earliest index on ties), used by
the greedy distance resolution the specification describes. -/
def pickMax (s : List ℚ) : List ℕ → Option ℕ
  | [] => none
  | k :: rest =>
      match pickMax s rest with
      | none => some k
      | some j => if s.getD k 0 < s.getD j 0 then some j else some k

/-- Iteration core of the greedy distance resolution the specification
describes: repeatedly pick the highest remaining candidate and discard
all others within `d` of it.  The fuel argument bounds the number of
rounds (each round removes the picked candidate from the remaining
list) and makes the recursion structural. -/
def greedyResolveGo (s : List ℚ) (d : ℕ) : ℕ → List ℕ → List ℕ
  | 0, _ => []
  | fuel + 1, cands =>
      match pickMax s cands with
      | none => []
      | some j =>
          j :: greedyResolveGo s d fuel
            (cands.filter (fun k =>
              decide (k ≠ j) && (decide (d ≤ k - j) || decide (d ≤ j - k))))

/-- The greedy distance resolution the specification describes. -/
def greedyResolve (s : List ℚ) (d : ℕ) (cands : List ℕ) : List ℕ :=
  greedyResolveGo s d cands.length cands

/-- The reference peak detector of the specification, following its
words: candidate peaks are the strict local maxima (endpoints never
peaks); apply the height filter, then the prominence filter, then
greedily resolve distance conflicts by repeatedly keeping the highest
remaining candidate and discarding all others within `d` of it; output
in ascending index order.  Prominence is the drop to the surrounding
valleys on the smaller side, shared with the implementation model. -/
def refPeakDetect (s : List ℚ) (ht pr : ℚ) (d : ℕ) : List ℕ :=
  let c1 := (strictCandidates s).filter (fun k => ht ≤ s.getD k 0)
  let c2 := c1.filter (fun k => pr ≤ prominenceAt s k)
  c2.filter (fun k => k ∈ greedyResolve s d c2)

/-- The reference peak detector amended to match the implementation
order on plateau-free signals: strict local-maximum candidates, the
inclusive height filter, then the distance selection (greedy by
descending height, rightmost on equal heights), then the inclusive
prominence filter. -/
def refPeakDetectAmended (s : List ℚ) (ht pr : ℚ) (d : ℕ) : List ℕ :=
  let c1 := (strictCandidates s).filter (fun k => ht ≤ s.getD k 0)
  let c2 := selectByPeakDistance c1 (c1.map (fun k => s.getD k 0)) d
  c2.filter (fun k => pr ≤ prominenceAt s k)

/-- Placeholder note names for the 88 pitches in concrete runs (the
name strings are copied into events verbatim and play no role in the
control flow). -/
def names88 : List String :=
  List.replicate 88 ""

/-- A concrete spectrogram with one frequency bin and one energy spike
at frame 1, used to exercise the full pipeline on a success path. -/
def witS : List (List ℚ) :=
  [[0, 1, 0, 0]]

/-- The time axis of the one-bin example: four frames 0.01 s apart. -/
def witT : List ℚ :=
  [0, 1 / 100, 2 / 100, 3 / 100]

/-- Pitch frequencies for the one-bin example; with a single bin every
pitch maps to bin 0 whatever its frequency. -/
def witPf : List ℚ :=
  List.replicate 88 0

/-- The output of the pipeline on the one-bin example: all 88 pitch
channels share the single bin, all spike at frame 1, and the resolver
window keeps the top 3 by magnitude (all tied, so the first three
pitches survive in order). -/
def witOut : List NoteEvent :=
  [{ time := 1 / 100, note := "", frequency := 0, magnitude := 1,
     onset_strength := 1, midi := 21 },
   { time := 1 / 100, note := "", frequency := 0, magnitude := 1,
     onset_strength := 1, midi := 22 },
   { time := 1 / 100, note := "", frequency := 0, magnitude := 1,
     onset_strength := 1, midi := 23 }]

/-- A concrete spectrogram for the sortedness counterexample: pitches
0-3 map to bins 0-3 and spike at frames 1-4 with magnitudes 0.71, 1,
0.9, 0.95; frequency 1000 (all remaining pitches) maps to the silent
bin 4. -/
def cexSortS : List (List ℚ) :=
  [[0, 71 / 100, 0, 0, 0, 0],
   [0, 0, 1, 0, 0, 0],
   [0, 0, 0, 9 / 10, 0, 0],
   [0, 0, 0, 0, 95 / 100, 0],
   [0, 0, 0, 0, 0, 0]]

/-- Time axis for the sortedness counterexample: six frames 4 ms
apart, so all four spikes fall inside one 30 ms resolver window. -/
def cexSortT : List ℚ :=
  [0, 1 / 250, 2 / 250, 3 / 250, 4 / 250, 5 / 250]

/-- Frequency axis for the sortedness counterexample. -/
def cexSortF : List ℚ :=
  [0, 1, 2, 3, 1000]

/-- Pitch frequencies for the sortedness counterexample: pitches 0-3
at the first four bins, all others at the silent bin. -/
def cexSortPf : List ℚ :=
  [0, 1, 2, 3] ++ List.replicate 84 1000

/-- Pipeline output on the sortedness counterexample: one window with
four strong events is trimmed to its top 3 by magnitude, emitting
times 0.008 s, 0.016 s, 0.012 s — out of order. -/
def cexSortOut : List NoteEvent :=
  [{ time := 1 / 125, note := "", frequency := 1, magnitude := 1,
     onset_strength := 1, midi := 22 },
   { time := 2 / 125, note := "", frequency := 3, magnitude := 19 / 20,
     onset_strength := 19 / 20, midi := 24 },
   { time := 3 / 250, note := "", frequency := 2, magnitude := 9 / 10,
     onset_strength := 9 / 10, midi := 23 }]

/-- A concrete spectrogram for the 30 ms window-cap counterexample:
pitches 0-4 map to bins 0-4 and spike (magnitude 1) at frames 1, 8, 9,
10 and 11; frequency 1000 (all remaining pitches) maps to the silent
bin 5. -/
def cexWinS : List (List ℚ) :=
  [[0, 1, 0, 0, 0, 0, 0, 0, 0, 0, 0, 0, 0],
   [0, 0, 0, 0, 0, 0, 0, 0, 1, 0, 0, 0, 0],
   [0, 0, 0, 0, 0, 0, 0, 0, 0, 1, 0, 0, 0],
   [0, 0, 0, 0, 0, 0, 0, 0, 0, 0, 1, 0, 0],
   [0, 0, 0, 0, 0, 0, 0, 0, 0, 0, 0, 1, 0],
   [0, 0, 0, 0, 0, 0, 0, 0, 0, 0, 0, 0, 0]]

/-- Time axis for the window-cap counterexample: thirteen frames 4 ms
apart.  The events at 0.004 s and 0.032 s share the first resolver
window; the events at 0.036 s, 0.040 s and 0.044 s form the second. -/
def cexWinT : List ℚ :=
  [0, 1 / 250, 2 / 250, 3 / 250, 4 / 250, 5 / 250, 6 / 250, 7 / 250,
   8 / 250, 9 / 250, 10 / 250, 11 / 250, 12 / 250]

/-- Frequency axis for the window-cap counterexample. -/
def cexWinF : List ℚ :=
  [0, 1, 2, 3, 4, 1000]

/-- Pitch frequencies for the window-cap counterexample. -/
def cexWinPf : List ℚ :=
  [0, 1, 2, 3, 4] ++ List.replicate 83 1000

/-- Pipeline output on the window-cap counterexample: all five events
survive (each resolver window is within the cap), but the last four,
which lie pairwise within 12 ms of each other, span two windows. -/
def cexWinOut : List NoteEvent :=
  [{ time := 1 / 250, note := "", frequency := 0, magnitude := 1,
     onset_strength := 1, midi := 21 },
   { time := 4 / 125, note := "", frequency := 1, magnitude := 1,
     onset_strength := 1, midi := 22 },
   { time := 9 / 250, note := "", frequency := 2, magnitude := 1,
     onset_strength := 1, midi := 23 },
   { time := 1 / 25, note := "", frequency := 3, magnitude := 1,
     onset_strength := 1, midi := 24 },
   { time := 11 / 250, note := "", frequency := 4, magnitude := 1,
     onset_strength := 1, midi := 25 }]

/-- The last four events of `cexWinOut`: pairwise within 30 ms of each
other, yet four of them. -/
def cexWinSub : List NoteEvent :=
  [{ time := 4 / 125, note := "", frequency := 1, magnitude := 1,
     onset_strength := 1, midi := 22 },
   { time := 9 / 250, note := "", frequency := 2, magnitude := 1,
     onset_strength := 1, midi := 23 },
   { time := 1 / 25, note := "", frequency := 3, magnitude := 1,
     onset_strength := 1, midi := 24 },
   { time := 11 / 250, note := "", frequency := 4, magnitude := 1,
     onset_strength := 1, midi := 25 }]

/-- A helper for building bare raw events in resolver examples. -/
def mkResolverEvent (tt m : ℚ) : RawEvent :=
  { time := tt, note := "", frequency := 0, magnitude := m,
    onset_strength := 0, midi := 0, note_idx := 0 }

/-- A time-sorted event list on which the harmonic resolver is not
idempotent: the first pass drops the weak window opener at time 0,
which shifts the second-pass window so that the event at 0.03 s now
falls within 30 ms of the strong event at 0.01 s and is dropped. -/
def resolverIn : List RawEvent :=
  [mkResolverEvent 0 (1 / 10), mkResolverEvent (1 / 100) 1,
   mkResolverEvent (3 / 100) (2 / 10)]

/-- A resolver input whose consecutive events are at least 30 ms
apart. -/
def resolverSeparated : List RawEvent :=
  [mkResolverEvent 0 1, mkResolverEvent (1 / 10) (1 / 2)]

/-- The plateau scan never moves backward. -/
theorem le_plateauEndGo (x : List ℚ) (imax : ℕ) (v : ℚ) :
    ∀ fuel ia, ia ≤ plateauEndGo x imax v fuel ia := by
  intro fuel
  induction fuel with
  | zero => intro ia; exact le_refl ia
  | succ fuel ih =>
      intro ia
      rw [plateauEndGo]
      split
      · exact le_trans (Nat.le_succ ia) (ih (ia + 1))
      · exact le_refl ia

/-- The plateau scan never moves backward. -/
theorem le_plateauEnd (x : List ℚ) (imax : ℕ) (v : ℚ) (ia : ℕ) :
    ia ≤ plateauEnd x imax v ia :=
  le_plateauEndGo x imax v (imax - ia) ia

/-- The plateau scan never runs past `imax` when started at or below
it. -/
theorem plateauEndGo_le (x : List ℚ) (imax : ℕ) (v : ℚ) :
    ∀ fuel ia, ia ≤ imax → plateauEndGo x imax v fuel ia ≤ imax := by
  intro fuel
  induction fuel with
  | zero => intro ia h; exact h
  | succ fuel ih =>
      intro ia h
      rw [plateauEndGo]
      split
      · next hc => exact ih (ia + 1) (by omega)
      · exact h

/-- The onset-strength series has one entry per frame. -/
theorem onsetStrength_length (m : List ℚ) :
    (onsetStrength m).length = m.length := by
  simp only [onsetStrength, List.length_map, List.length_zipWith,
    List.length_cons]
  omega

/-- C1, counterexample: the first element of the onset-strength series
of the magnitude series `[1/2]` is `1/2`, not `0` as the claim states
(the code diffs against a prepended `0`, so index 0 carries
`max(0, magnitude[0])`). -/
theorem C1_counterexample :
    (onsetStrength [1 / 2]).getD 0 0 = 1 / 2 ∧
      (onsetStrength [1 / 2]).getD 0 0 ≠ 0 :=
  of_decide_eq_true (by with_unfolding_all rfl)

/-- C1 (amended): at every index `k ≥ 1` the onset-strength series is
`max(0, magnitude[k] - magnitude[k-1])`, and its first element is
`max(0, magnitude[0])` — the rectified difference against an implicit
prepended zero — rather than the `0` the claim states. -/
theorem C1_onset_series (m : List ℚ) (k : ℕ) (hk : k < m.length) :
    (onsetStrength m).getD k 0 =
      if k = 0 then qmax (m.getD 0 0) 0
      else qmax (m.getD k 0 - m.getD (k - 1) 0) 0 := by
  have hlen : (onsetStrength m).length = m.length := onsetStrength_length m
  rw [List.getD_eq_getElem _ _ (by omega)]
  simp only [onsetStrength, List.getElem_map, List.getElem_zipWith]
  cases k with
  | zero =>
      rw [if_pos rfl]
      simp only [List.getElem_cons_zero, sub_zero]
      rw [List.getD_eq_getElem _ _ hk]
  | succ k =>
      rw [if_neg (Nat.succ_ne_zero k)]
      simp only [List.getElem_cons_succ, Nat.add_sub_cancel]
      rw [List.getD_eq_getElem _ _ hk,
        List.getD_eq_getElem _ _ (show k < m.length by omega)]

/-- C1, witness for the amended statement at `m = [1/2, 1/3]`,
`k = 1`. -/
theorem C1_onset_series_witness :
    (onsetStrength [1 / 2, 1 / 3]).getD 1 0 =
      if (1 : ℕ) = 0 then qmax (([1 / 2, 1 / 3] : List ℚ).getD 0 0) 0
      else qmax (([1 / 2, 1 / 3] : List ℚ).getD 1 0 -
        ([1 / 2, 1 / 3] : List ℚ).getD 0 0) 0 :=
  C1_onset_series [1 / 2, 1 / 3] 1 (by decide)

/-- C2, counterexample: with `min_note_gap = 0` and frame period
`1/10` the parameter the code passes is `int(0 / (1/10)) = 0`, not the
`max(1, round(...)) = 1` the claim states; and on a concrete
spectrogram with `min_note_gap = 0` the pipeline fails with the scipy
distance validation error instead of clamping. -/
theorem C2_counterexample :
    distParam 0 (1 / 10) = 0 ∧ specDistParam 0 (1 / 10) = 1 ∧
      detectNoteEvents witS witT [0] witPf names88 (1 / 10) (1 / 20) 0 (1 / 10) =
        .error "ValueError: distance must be greater or equal to 1" := by
  refine ⟨by with_unfolding_all rfl, ?_, by with_unfolding_all rfl⟩
  norm_num [specDistParam]

/-- C2 (amended): the parameter passed to the peak detector is
`int(min_note_gap / frame_period)` — truncation with no lower clamp —
and the pipeline succeeds exactly when that value is at least 1; when
`min_note_gap` is smaller than one frame period the truncation yields 0
and `detect_note_events` fails with the scipy distance validation
error. -/
theorem C2_distance_behavior (S : List (List ℚ)) (t f pf : List ℚ)
    (names : List String) (ht pr g mm : ℚ) (hf : f ≠ [])
    (htl : 2 ≤ t.length) :
    (∃ out, detectNoteEvents S t f pf names ht pr g mm = .ok out) ↔
      1 ≤ distParam g (t.getD 1 0 - t.getD 0 0) := by
  unfold detectNoteEvents
  rw [if_neg hf, if_neg (by omega)]
  by_cases hd : distParam g (t.getD 1 0 - t.getD 0 0) < 1
  · rw [if_pos hd]
    constructor
    · rintro ⟨out, h⟩
      simp at h
    · intro h1
      omega
  · rw [if_neg hd]
    constructor
    · intro _
      omega
    · intro _
      exact ⟨_, rfl⟩

/-- C2, witness for the amended statement on the one-bin example with
`min_note_gap` equal to the frame period. -/
theorem C2_distance_behavior_witness :
    (∃ out, detectNoteEvents witS witT [0] witPf names88 (1 / 10) (1 / 20)
        (1 / 100) (1 / 10) = .ok out) ↔
      1 ≤ distParam (1 / 100) (witT.getD 1 0 - witT.getD 0 0) :=
  C2_distance_behavior witS witT [0] witPf names88 (1 / 10) (1 / 20)
    (1 / 100) (1 / 10) (by simp) (by decide)

/-- C3, counterexample: on a spectrogram with zero frequency bins the
pipeline fails with the numpy argmin error, and on one with zero time
frames it fails with an index error — neither case returns an empty
event list. -/
theorem C3_counterexample :
    detectNoteEvents [] [0, 1 / 10] [] witPf names88 (15 / 100) (1 / 20)
        (15 / 100) (15 / 100) =
      .error "ValueError: attempt to get argmin of an empty sequence" ∧
    detectNoteEvents [[]] [] [1] witPf names88 (15 / 100) (1 / 20)
        (15 / 100) (15 / 100) =
      .error "IndexError: index 1 is out of bounds" :=
  ⟨by with_unfolding_all rfl, by with_unfolding_all rfl⟩

/-- C3 (amended): `detect_note_events` raises on an empty spectrogram
instead of returning an empty list: an empty frequency axis makes the
bin-mapping argmin fail, and a time axis with fewer than two frames
makes the frame-period access `t[1]` fail. -/
theorem C3_empty_input_fails (S : List (List ℚ)) (t f pf : List ℚ)
    (names : List String) (ht pr g mm : ℚ) :
    (f = [] → detectNoteEvents S t f pf names ht pr g mm =
      .error "ValueError: attempt to get argmin of an empty sequence") ∧
    (f ≠ [] → t.length < 2 → detectNoteEvents S t f pf names ht pr g mm =
      .error "IndexError: index 1 is out of bounds") := by
  constructor
  · intro h
    unfold detectNoteEvents
    rw [if_pos h]
  · intro hf htl
    unfold detectNoteEvents
    rw [if_neg hf, if_pos htl]

/-- C3, witness for the amended statement at the two empty shapes. -/
theorem C3_empty_input_fails_witness :
    detectNoteEvents [[0]] [0, 1 / 10] [] witPf names88 (15 / 100) (1 / 20)
        (15 / 100) (15 / 100) =
      .error "ValueError: attempt to get argmin of an empty sequence" ∧
    detectNoteEvents [[0]] [0] [1] witPf names88 (15 / 100) (1 / 20)
        (15 / 100) (15 / 100) =
      .error "IndexError: index 1 is out of bounds" :=
  ⟨(C3_empty_input_fails [[0]] [0, 1 / 10] [] witPf names88 (15 / 100)
      (1 / 20) (15 / 100) (15 / 100)).1 rfl,
    (C3_empty_input_fails [[0]] [0] [1] witPf names88 (15 / 100) (1 / 20)
      (15 / 100) (15 / 100)).2 (by simp) (by decide)⟩

/-- C5, counterexample: the pipeline detector (scipy `find_peaks`) and
the reference algorithm of the specification disagree twice over: on
the plateau signal `[0, 1, 1, 0]` scipy reports the plateau midpoint 1
while the reference has no strict local maximum; and on
`[0.9, 1, 0.2, 0.95, 0]` with `min_distance = 3` scipy lets the high
shoulder peak at index 1 eliminate index 3 before the prominence filter
rejects index 1 itself (result: nothing), while the reference filters
index 1 by prominence first, so index 3 survives. -/
theorem C5_counterexample :
    findPeaks [0, 1, 1, 0] (1 / 10) (1 / 20) 1 = [1] ∧
    refPeakDetect [0, 1, 1, 0] (1 / 10) (1 / 20) 1 = [] ∧
    findPeaks [9 / 10, 1, 2 / 10, 95 / 100, 0] (1 / 100) (3 / 10) 3 = [] ∧
    refPeakDetect [9 / 10, 1, 2 / 10, 95 / 100, 0] (1 / 100) (3 / 10) 3 = [3] :=
  ⟨by with_unfolding_all rfl, by with_unfolding_all rfl,
    by with_unfolding_all rfl, by with_unfolding_all rfl⟩

/-- A singleton resolver window is kept unchanged. -/
theorem selectWindow_singleton (e : RawEvent) : selectWindow [e] = [e] := by
  simp [selectWindow]

/-- On an event list whose consecutive events are at least 30 ms
apart, every resolver window is a singleton. -/
theorem windowsOfGo_separated :
    ∀ (fuel : ℕ) (l : List RawEvent), l.length ≤ fuel →
      List.Chain' (fun a b => 3 / 100 ≤ b.time - a.time) l →
      windowsOfGo fuel l = l.map (fun e => [e]) := by
  intro fuel
  induction fuel with
  | zero =>
      intro l hl _
      cases l with
      | nil => rfl
      | cons e rest => simp at hl
  | succ fuel ih =>
      intro l hl hchain
      cases l with
      | nil => rfl
      | cons e rest =>
          cases rest with
          | nil =>
              simp only [windowsOfGo, List.takeWhile_nil, List.dropWhile_nil,
                List.map_cons, List.map_nil]
              cases fuel <;> rfl
          | cons r rest2 =>
              have h1 : 3 / 100 ≤ r.time - e.time :=
                (List.chain'_cons.mp hchain).1
              have hnp : ¬ (r.time - e.time < 3 / 100) := not_lt.mpr h1
              rw [windowsOfGo]
              rw [List.takeWhile_cons_of_neg (by simpa using hnp),
                List.dropWhile_cons_of_neg (by simpa using hnp)]
              simp only [List.map_cons]
              congr 1
              refine ih (r :: rest2) ?_ (List.chain'_cons.mp hchain).2
              simp only [List.length_cons] at hl ⊢
              omega

/-- Flattening a list of singletons gives back the list. -/
theorem flattenMapSingleton (l : List α) :
    (l.map (fun e => [e])).flatten = l := by
  induction l with
  | nil => rfl
  | cons e rest ihl => simp [ihl]

/-- The harmonic resolver leaves a 30 ms-separated event list
unchanged. -/
theorem harmonicFilter_eq_self_of_separated (l : List RawEvent)
    (h : List.Chain' (fun a b => 3 / 100 ≤ b.time - a.time) l) :
    harmonicFilter l = l := by
  unfold harmonicFilter windowsOf
  rw [windowsOfGo_separated l.length l le_rfl h, List.map_map]
  have hsel : (selectWindow ∘ fun e => [e]) = fun e => ([e] : List RawEvent) :=
    funext fun e => selectWindow_singleton e
  rw [hsel]
  exact flattenMapSingleton l

/-- C7, counterexample: the resolver is not idempotent.  On the
time-sorted list `resolverIn` the first pass drops the weak window
opener at time 0; rerunning the pass on the output regroups the
remaining events into a new window and drops one more. -/
theorem C7_counterexample :
    List.Chain' (fun a b => a.time ≤ b.time) resolverIn ∧
      harmonicFilter (harmonicFilter resolverIn) ≠ harmonicFilter resolverIn :=
  ⟨by norm_num [resolverIn, mkResolverEvent, List.chain'_cons],
    of_decide_eq_true (by with_unfolding_all rfl)⟩

/-- C7 (amended): a second resolver pass can remove further events,
because windows are recomputed from the surviving events and may
regroup; the resolver is idempotent on (indeed, the identity on) every
sequence whose consecutive events are at least 30 ms apart. -/
theorem C7_resolver_idempotent_separated (l : List RawEvent)
    (h : List.Chain' (fun a b => 3 / 100 ≤ b.time - a.time) l) :
    harmonicFilter (harmonicFilter l) = harmonicFilter l := by
  rw [harmonicFilter_eq_self_of_separated l h,
    harmonicFilter_eq_self_of_separated l h]

/-- C7, witness for the amended statement on a separated two-event
list. -/
theorem C7_resolver_idempotent_separated_witness :
    harmonicFilter (harmonicFilter resolverSeparated) =
      harmonicFilter resolverSeparated :=
  C7_resolver_idempotent_separated resolverSeparated
    (by norm_num [resolverSeparated, mkResolverEvent, List.chain'_cons])

/-- Membership in a stable insertion. -/
theorem mem_insertBy {p : α → α → Bool} {a x : α} :
    ∀ {l : List α}, x ∈ insertBy p a l ↔ x = a ∨ x ∈ l := by
  intro l
  induction l with
  | nil => simp [insertBy]
  | cons b m ih =>
      rw [insertBy]
      split
      all_goals simp only [List.mem_cons, ih]
      all_goals tauto

/-- The stable sort does not change membership. -/
theorem mem_sortBy {p : α → α → Bool} {x : α} :
    ∀ {l : List α}, x ∈ sortBy p l ↔ x ∈ l := by
  intro l
  induction l with
  | nil => simp [sortBy]
  | cons a m ih =>
      rw [sortBy, mem_insertBy]
      simp [ih]

/-- Window selection only keeps events of the window. -/
theorem mem_selectWindow {e : RawEvent} {w : List RawEvent}
    (h : e ∈ selectWindow w) : e ∈ w := by
  simp only [selectWindow] at h
  split_ifs at h with h1 h2
  · have h3 := List.mem_of_mem_take h
    rw [mem_sortBy] at h3
    unfold strongOf at h3
    exact List.mem_of_mem_filter h3
  · unfold strongOf at h
    exact List.mem_of_mem_filter h
  · exact h

/-- Events of a resolver window are events of the scanned list. -/
theorem mem_windowsOfGo :
    ∀ (fuel : ℕ) (l : List RawEvent) (W : List RawEvent),
      W ∈ windowsOfGo fuel l → ∀ e ∈ W, e ∈ l := by
  intro fuel
  induction fuel with
  | zero =>
      intro l W hW
      simp [windowsOfGo] at hW
  | succ fuel ih =>
      intro l W hW e he
      cases l with
      | nil => simp [windowsOfGo] at hW
      | cons a rest =>
          rw [windowsOfGo] at hW
          rcases List.mem_cons.mp hW with hW1 | hW2
          · subst hW1
            rcases List.mem_cons.mp he with he1 | he2
            · exact he1 ▸ List.mem_cons_self a rest
            · exact List.mem_cons_of_mem a
                ((List.takeWhile_sublist _).subset he2)
          · exact List.mem_cons_of_mem a
              ((List.dropWhile_sublist _).subset (ih _ W hW2 e he))

/-- The harmonic resolver only keeps events of its input. -/
theorem mem_harmonicFilter {e : RawEvent} {l : List RawEvent}
    (h : e ∈ harmonicFilter l) : e ∈ l := by
  unfold harmonicFilter windowsOf at h
  rcases List.mem_flatten.mp h with ⟨w, hw, hew⟩
  rcases List.mem_map.mp hw with ⟨W, hW, rfl⟩
  exact mem_windowsOfGo _ _ W hW e (mem_selectWindow hew)

/-- Every index the local-maxima scan reports is below `imax`. -/
theorem lmScanGo_lt (x : List ℚ) (imax : ℕ) :
    ∀ (fuel i k : ℕ), k ∈ lmScanGo x imax fuel i → k < imax := by
  intro fuel
  induction fuel with
  | zero =>
      intro i k hk
      simp [lmScanGo] at hk
  | succ fuel ih =>
      intro i k hk
      simp only [lmScanGo] at hk
      split_ifs at hk with hi h1 h2
      · rcases List.mem_cons.mp hk with hk1 | hk2
        · have hia2 : i + 1 ≤ plateauEnd x imax (x.getD i 0) (i + 1) :=
            le_plateauEnd x imax _ _
          have hia : plateauEnd x imax (x.getD i 0) (i + 1) ≤ imax :=
            plateauEndGo_le x imax _ _ _ (by omega)
          omega
        · exact ih _ k hk2
      · exact ih _ k hk
      · exact ih _ k hk
      · simp at hk

/-- Every candidate peak index is a valid signal index. -/
theorem localMaxima_lt {x : List ℚ} {k : ℕ} (h : k ∈ localMaxima x) :
    k < x.length := by
  unfold localMaxima at h
  have := lmScanGo_lt x (x.length - 1) (x.length - 1) 1 k h
  omega

/-- The distance selection only keeps peaks of its input. -/
theorem mem_selectByPeakDistance {pk : List ℕ} {hs : List ℚ} {d y : ℕ}
    (h : y ∈ selectByPeakDistance pk hs d) : y ∈ pk := by
  unfold selectByPeakDistance at h
  simp only [List.mem_map, List.mem_filter, List.mem_range] at h
  rcases h with ⟨k, ⟨hk, _⟩, rfl⟩
  rw [List.getD_eq_getElem _ _ hk]
  exact List.getElem_mem hk

/-- Every accepted peak index is a valid signal index. -/
theorem findPeaks_lt {x : List ℚ} {ht pr : ℚ} {d k : ℕ}
    (h : k ∈ findPeaks x ht pr d) : k < x.length := by
  simp only [findPeaks] at h
  exact localMaxima_lt
    (List.mem_of_mem_filter (mem_selectByPeakDistance (List.mem_of_mem_filter h)))

/-- Inversion of a successful pipeline run: the output is the stripped
harmonic-filtered stable time sort of the pooled raw events. -/
theorem detect_ok_inv {S : List (List ℚ)} {t f pf : List ℚ}
    {names : List String} {ht pr g mm : ℚ} {out : List NoteEvent}
    (hok : detectNoteEvents S t f pf names ht pr g mm = .ok out) :
    out = (harmonicFilter (sortBy (fun b a => b.time < a.time)
      (rawEventsOf S t f pf names ht pr mm
        ((distParam g (t.getD 1 0 - t.getD 0 0)).toNat)))).map stripIdx := by
  simp only [detectNoteEvents] at hok
  split_ifs at hok
  rw [Except.ok.injEq] at hok
  exact hok.symm

/-- Inversion of raw-event membership: every pooled raw event comes
from an accepted peak of some pitch, with the magnitude floor checked
at creation and all fields filled from the peak frame. -/
theorem mem_rawEventsOf {S : List (List ℚ)} {t f pf : List ℚ}
    {names : List String} {ht pr mm : ℚ} {dist : ℕ} {r : RawEvent}
    (h : r ∈ rawEventsOf S t f pf names ht pr mm dist) :
    ∃ idx k, idx ∈ List.range 88 ∧
      k ∈ findPeaks (onsetStrength
        (noteSeriesAt S (pf.map (argminAbsDiff f)) idx)) ht pr dist ∧
      mm ≤ (noteSeriesAt S (pf.map (argminAbsDiff f)) idx).getD k 0 ∧
      r = { time := t.getD k 0, note := names.getD idx "",
            frequency := pf.getD idx 0,
            magnitude := (noteSeriesAt S (pf.map (argminAbsDiff f)) idx).getD k 0,
            onset_strength := (onsetStrength
              (noteSeriesAt S (pf.map (argminAbsDiff f)) idx)).getD k 0,
            midi := idx + 21, note_idx := idx } := by
  simp only [rawEventsOf, rawEventsForNote, List.mem_flatMap,
    List.mem_filterMap] at h
  rcases h with ⟨idx, hidx, k, hk, hr⟩
  split_ifs at hr with hmm
  rw [Option.some_inj] at hr
  exact ⟨idx, k, hidx, hk, hmm, hr.symm⟩

/-- C9 (confirmed): every event in the final output of
`detect_note_events` has magnitude at least `min_magnitude` — the floor
is checked when the event is created and the harmonic resolver only
removes events. -/
theorem C9_magnitude_floor (S : List (List ℚ)) (t f pf : List ℚ)
    (names : List String) (ht pr g mm : ℚ) (out : List NoteEvent)
    (hok : detectNoteEvents S t f pf names ht pr g mm = .ok out) :
    ∀ e ∈ out, mm ≤ e.magnitude := by
  intro e he
  rw [detect_ok_inv hok] at he
  rcases List.mem_map.mp he with ⟨r, hr, rfl⟩
  rcases mem_rawEventsOf (mem_sortBy.mp (mem_harmonicFilter hr)) with
    ⟨idx, k, _, _, hmm2, rfl⟩
  exact hmm2

/-- C9, witness on the one-bin example. -/
theorem C9_magnitude_floor_witness :
    detectNoteEvents witS witT [0] witPf names88 (1 / 10) (1 / 20)
        (1 / 100) (1 / 10) = .ok witOut ∧
      ∀ e ∈ witOut, (1 / 10 : ℚ) ≤ e.magnitude :=
  ⟨by with_unfolding_all rfl,
    C9_magnitude_floor witS witT [0] witPf names88 (1 / 10) (1 / 20)
      (1 / 100) (1 / 10) witOut (by with_unfolding_all rfl)⟩

/-- C8 (confirmed): on a well-shaped spectrogram (no row longer than
the time axis) every event in the final output of `detect_note_events`
carries a time that is exactly an element of the time axis — events are
frame-quantized, never interpolated. -/
theorem C8_time_quantized (S : List (List ℚ)) (t f pf : List ℚ)
    (names : List String) (ht pr g mm : ℚ) (out : List NoteEvent)
    (hok : detectNoteEvents S t f pf names ht pr g mm = .ok out)
    (hS : ∀ row ∈ S, row.length ≤ t.length) :
    ∀ e ∈ out, e.time ∈ t := by
  intro e he
  rw [detect_ok_inv hok] at he
  rcases List.mem_map.mp he with ⟨r, hr, rfl⟩
  rcases mem_rawEventsOf (mem_sortBy.mp (mem_harmonicFilter hr)) with
    ⟨idx, k, _, hkp, _, rfl⟩
  have hklt := findPeaks_lt hkp
  rw [onsetStrength_length] at hklt
  have hmlen : (noteSeriesAt S (pf.map (argminAbsDiff f)) idx).length ≤
      t.length := by
    unfold noteSeriesAt
    rcases Nat.lt_or_ge ((pf.map (argminAbsDiff f)).getD idx 0) S.length with
      hb | hb
    · rw [List.getD_eq_getElem _ _ hb]
      exact hS _ (List.getElem_mem hb)
    · rw [List.getD_eq_default _ _ hb]
      simp
  have hkt : k < t.length := lt_of_lt_of_le hklt hmlen
  show (stripIdx _).time ∈ t
  unfold stripIdx
  rw [List.getD_eq_getElem _ _ hkt]
  exact List.getElem_mem hkt

/-- C8, witness on the one-bin example. -/
theorem C8_time_quantized_witness :
    detectNoteEvents witS witT [0] witPf names88 (1 / 10) (1 / 20)
        (1 / 100) (1 / 10) = .ok witOut ∧
      ∀ e ∈ witOut, e.time ∈ witT :=
  ⟨by with_unfolding_all rfl,
    C8_time_quantized witS witT [0] witPf names88 (1 / 10) (1 / 20)
      (1 / 100) (1 / 10) witOut (by with_unfolding_all rfl)
      (of_decide_eq_true (by with_unfolding_all rfl))⟩

/-- C10 (confirmed): the harmonic-resolution stage only removes
events: every event in the final output is one of the pooled raw
per-pitch detections with all its fields unchanged, only the internal
`note_idx` field stripped. -/
theorem C10_resolver_only_removes (S : List (List ℚ)) (t f pf : List ℚ)
    (names : List String) (ht pr g mm : ℚ) (out : List NoteEvent)
    (hok : detectNoteEvents S t f pf names ht pr g mm = .ok out) :
    ∀ e ∈ out, ∃ r, r ∈ rawEventsOf S t f pf names ht pr mm
      ((distParam g (t.getD 1 0 - t.getD 0 0)).toNat) ∧ e = stripIdx r := by
  intro e he
  rw [detect_ok_inv hok] at he
  rcases List.mem_map.mp he with ⟨r, hr, rfl⟩
  exact ⟨r, mem_sortBy.mp (mem_harmonicFilter hr), rfl⟩

/-- C10, witness on the one-bin example. -/
theorem C10_resolver_only_removes_witness :
    detectNoteEvents witS witT [0] witPf names88 (1 / 10) (1 / 20)
        (1 / 100) (1 / 10) = .ok witOut ∧
      ∀ e ∈ witOut, ∃ r, r ∈ rawEventsOf witS witT [0] witPf names88
        (1 / 10) (1 / 20) (1 / 10)
        ((distParam (1 / 100) (witT.getD 1 0 - witT.getD 0 0)).toNat) ∧
        e = stripIdx r :=
  ⟨by with_unfolding_all rfl,
    C10_resolver_only_removes witS witT [0] witPf names88 (1 / 10) (1 / 20)
      (1 / 100) (1 / 10) witOut (by with_unfolding_all rfl)⟩

/-- Left argument bound for the kernel-evaluable maximum. -/
theorem le_qmax_left (a b : ℚ) : a ≤ qmax a b := by
  unfold qmax
  split_ifs with h
  · exact h
  · exact le_refl a

/-- Right argument bound for the kernel-evaluable maximum. -/
theorem le_qmax_right (a b : ℚ) : b ≤ qmax a b := by
  unfold qmax
  split_ifs with h
  · exact le_refl b
  · exact le_of_not_le h

/-- The kernel-evaluable maximum respects upper bounds. -/
theorem qmax_le {a b c : ℚ} (h1 : a ≤ c) (h2 : b ≤ c) : qmax a b ≤ c := by
  unfold qmax
  split_ifs <;> assumption

/-- The magnitude fold never drops below its accumulator. -/
theorem le_foldl_qmax : ∀ (rest : List RawEvent) (b : ℚ),
    b ≤ rest.foldl (fun m x => qmax m x.magnitude) b := by
  intro rest
  induction rest with
  | nil => intro b; exact le_refl b
  | cons x xs ih =>
      intro b
      exact le_trans (le_qmax_left b x.magnitude) (ih (qmax b x.magnitude))

/-- Every member of the fold is bounded by the magnitude fold. -/
theorem mem_le_foldl_qmax : ∀ (rest : List RawEvent) (b : ℚ) (e : RawEvent),
    e ∈ rest → e.magnitude ≤ rest.foldl (fun m x => qmax m x.magnitude) b := by
  intro rest
  induction rest with
  | nil => intro b e he; simp at he
  | cons x xs ih =>
      intro b e he
      rcases List.mem_cons.mp he with rfl | hm
      · exact le_trans (le_qmax_right b e.magnitude)
          (le_foldl_qmax xs (qmax b e.magnitude))
      · exact ih (qmax b x.magnitude) e hm

/-- The magnitude fold stays under a common upper bound. -/
theorem foldl_qmax_le : ∀ (rest : List RawEvent) (b c : ℚ), b ≤ c →
    (∀ e ∈ rest, e.magnitude ≤ c) →
    rest.foldl (fun m x => qmax m x.magnitude) b ≤ c := by
  intro rest
  induction rest with
  | nil => intro b c hb _; exact hb
  | cons x xs ih =>
      intro b c hb hall
      exact ih (qmax b x.magnitude) c
        (qmax_le hb (hall x (List.mem_cons_self x xs)))
        (fun e he => hall e (List.mem_cons_of_mem x he))

/-- Every event of a window is bounded by the window maximum. -/
theorem mag_le_maxMagOf {e : RawEvent} {w : List RawEvent} (h : e ∈ w) :
    e.magnitude ≤ maxMagOf w := by
  cases w with
  | nil => simp at h
  | cons a rest =>
      rw [maxMagOf]
      rcases List.mem_cons.mp h with rfl | hm
      · exact le_foldl_qmax rest e.magnitude
      · exact mem_le_foldl_qmax rest a.magnitude e hm

/-- The window maximum respects a common nonnegative upper bound. -/
theorem maxMagOf_le {w : List RawEvent} {c : ℚ} (h0 : 0 ≤ c)
    (h : ∀ e ∈ w, e.magnitude ≤ c) : maxMagOf w ≤ c := by
  cases w with
  | nil => simpa [maxMagOf] using h0
  | cons a rest =>
      rw [maxMagOf]
      exact foldl_qmax_le rest a.magnitude c (h a (List.mem_cons_self a rest))
        (fun e he => h e (List.mem_cons_of_mem a he))

/-- Strong events carry at least 70 percent of the window maximum. -/
theorem mem_strongOf {e : RawEvent} {w : List RawEvent}
    (h : e ∈ strongOf w) : maxMagOf w * (7 / 10) ≤ e.magnitude := by
  unfold strongOf at h
  exact of_decide_eq_true (List.mem_filter.mp h).2

/-- A window selection never keeps more than 3 events. -/
theorem selectWindow_length_le (w : List RawEvent) :
    (selectWindow w).length ≤ 3 := by
  simp only [selectWindow]
  split_ifs with h1 h2
  · exact List.length_take_le 3 _
  · omega
  · omega

/-- When the window magnitudes are nonnegative, every kept event of a
window selection has at least 70 percent of the selection maximum. -/
theorem selectWindow_mag (w : List RawEvent)
    (hpos : ∀ e ∈ w, 0 ≤ e.magnitude) :
    ∀ e ∈ selectWindow w, maxMagOf (selectWindow w) * (7 / 10) ≤ e.magnitude := by
  intro e he
  have hew : e ∈ w := mem_selectWindow he
  have hmax0 : 0 ≤ maxMagOf w :=
    le_trans (hpos e hew) (mag_le_maxMagOf hew)
  simp only [selectWindow] at he ⊢
  split_ifs at he ⊢ with h1 h2
  · have hes : e ∈ strongOf w := by
      have h3 := List.mem_of_mem_take he
      rw [mem_sortBy] at h3
      exact h3
    have hstrong := mem_strongOf hes
    have hsub : maxMagOf ((sortBy
        (fun b a => a.magnitude < b.magnitude) (strongOf w)).take 3) ≤
        maxMagOf w := by
      refine maxMagOf_le hmax0 (fun y hy => ?_)
      have hyw : y ∈ w := by
        have h4 := List.mem_of_mem_take hy
        rw [mem_sortBy] at h4
        unfold strongOf at h4
        exact List.mem_of_mem_filter h4
      exact mag_le_maxMagOf hyw
    calc maxMagOf ((sortBy (fun b a => a.magnitude < b.magnitude)
            (strongOf w)).take 3) * (7 / 10)
        ≤ maxMagOf w * (7 / 10) :=
          mul_le_mul_of_nonneg_right hsub (by norm_num)
      _ ≤ e.magnitude := hstrong
  · have hstrong := mem_strongOf he
    have hsub : maxMagOf (strongOf w) ≤ maxMagOf w := by
      refine maxMagOf_le hmax0 (fun y hy => ?_)
      unfold strongOf at hy
      exact mag_le_maxMagOf (List.mem_of_mem_filter hy)
    calc maxMagOf (strongOf w) * (7 / 10)
        ≤ maxMagOf w * (7 / 10) :=
          mul_le_mul_of_nonneg_right hsub (by norm_num)
      _ ≤ e.magnitude := hstrong
  · cases w with
    | nil => simp at he
    | cons a rest =>
        have hr : rest = [] := by
          cases rest with
          | nil => rfl
          | cons b m => simp at h1
        subst hr
        rcases List.mem_cons.mp he with rfl | habs
        · have h0 : (0 : ℚ) ≤ e.magnitude := hpos e hew
          have : maxMagOf [e] = e.magnitude := rfl
          rw [this]
          nlinarith
        · simp at habs

/-- Spectrogram rows with nonnegative entries give nonnegative series
samples (out-of-range reads default to 0). -/
theorem noteSeries_getD_nonneg {S : List (List ℚ)} {nb : List ℕ}
    {idx k : ℕ} (hpos : ∀ row ∈ S, ∀ v ∈ row, 0 ≤ v) :
    0 ≤ (noteSeriesAt S nb idx).getD k 0 := by
  unfold noteSeriesAt
  rcases Nat.lt_or_ge (nb.getD idx 0) S.length with hb | hb
  · rw [List.getD_eq_getElem _ _ hb]
    rcases Nat.lt_or_ge k (S[nb.getD idx 0]).length with hk | hk
    · rw [List.getD_eq_getElem _ _ hk]
      exact hpos _ (List.getElem_mem hb) _ (List.getElem_mem hk)
    · rw [List.getD_eq_default _ _ hk]
  · rw [List.getD_eq_default _ _ hb]
    simp

/-- Mapping distributes over flattening. -/
theorem map_flatten_eq (f : α → β) :
    ∀ (L : List (List α)), L.flatten.map f = (L.map (List.map f)).flatten := by
  intro L
  induction L with
  | nil => rfl
  | cons w ws ih => simp [ih]

/-- Stable insertion by time preserves sortedness by time. -/
theorem pairwise_time_insertBy (a : RawEvent) (l : List RawEvent)
    (h : List.Pairwise (fun x y => x.time ≤ y.time) l) :
    List.Pairwise (fun x y => x.time ≤ y.time)
      (insertBy (fun b a => b.time < a.time) a l) := by
  induction l with
  | nil => simp [insertBy]
  | cons b m ih =>
      rw [insertBy]
      rcases List.pairwise_cons.mp h with ⟨hb, hm⟩
      by_cases hba : b.time < a.time
      · rw [if_pos (by simpa using hba)]
        rw [List.pairwise_cons]
        constructor
        · intro y hy
          rcases mem_insertBy.mp hy with rfl | hym
          · exact le_of_lt hba
          · exact hb y hym
        · exact ih hm
      · rw [if_neg (by simpa using hba)]
        rw [List.pairwise_cons]
        constructor
        · intro y hy
          rcases List.mem_cons.mp hy with rfl | hym
          · exact le_of_not_lt hba
          · exact le_trans (le_of_not_lt hba) (hb y hym)
        · exact List.pairwise_cons.mpr ⟨hb, hm⟩

/-- The stable time sort sorts by non-decreasing time. -/
theorem pairwise_time_sortBy (l : List RawEvent) :
    List.Pairwise (fun x y => x.time ≤ y.time)
      (sortBy (fun b a => b.time < a.time) l) := by
  induction l with
  | nil => simp [sortBy]
  | cons a m ih =>
      rw [sortBy]
      exact pairwise_time_insertBy a _ ih

/-- An untrimmed window selection is a sublist of its window. -/
theorem selectWindow_sublist (w : List RawEvent)
    (hw : (strongOf w).length ≤ 3) : (selectWindow w).Sublist w := by
  simp only [selectWindow]
  split_ifs with h1 h2
  · exact absurd h2 (by omega)
  · unfold strongOf
    exact List.filter_sublist _
  · exact List.Sublist.refl w

/-- When no window is trimmed, the harmonic resolver returns a sublist
of its input. -/
theorem harmonicFilter_sublist_go :
    ∀ (fuel : ℕ) (l : List RawEvent), l.length ≤ fuel →
      (∀ W ∈ windowsOfGo fuel l, (strongOf W).length ≤ 3) →
      (((windowsOfGo fuel l).map selectWindow).flatten).Sublist l := by
  intro fuel
  induction fuel with
  | zero =>
      intro l hl _
      cases l with
      | nil => simp [windowsOfGo]
      | cons e rest => simp at hl
  | succ fuel ih =>
      intro l hl hW
      cases l with
      | nil => simp [windowsOfGo]
      | cons e rest =>
          rw [windowsOfGo, List.map_cons, List.flatten_cons]
          have hsub1 : (selectWindow
              (e :: rest.takeWhile (fun x => x.time - e.time < 3 / 100))).Sublist
              (e :: rest.takeWhile (fun x => x.time - e.time < 3 / 100)) := by
            refine selectWindow_sublist _ (hW _ ?_)
            rw [windowsOfGo]
            exact List.mem_cons_self _ _
          have hlen2 : (rest.dropWhile
              (fun x => x.time - e.time < 3 / 100)).length ≤ fuel := by
            have hsl : (rest.dropWhile
                (fun x => x.time - e.time < 3 / 100)).Sublist rest :=
              List.dropWhile_sublist _
            have := hsl.length_le
            simp only [List.length_cons] at hl
            omega
          have hsub2 := ih (rest.dropWhile (fun x => x.time - e.time < 3 / 100))
            hlen2 (fun W hW2 => hW W (by
              rw [windowsOfGo]
              exact List.mem_cons_of_mem _ hW2))
          have happ := List.Sublist.append hsub1 hsub2
          rwa [List.cons_append, List.takeWhile_append_dropWhile] at happ

/-- When no window is trimmed, the harmonic resolver returns a sublist
of its input. -/
theorem harmonicFilter_sublist (l : List RawEvent)
    (h : ∀ W ∈ windowsOf l, (strongOf W).length ≤ 3) :
    (harmonicFilter l).Sublist l := by
  unfold harmonicFilter windowsOf
  unfold windowsOf at h
  exact harmonicFilter_sublist_go l.length l (le_refl _) h

/-- C4, counterexample: on `cexSortS` the single resolver window holds
four strong events and is trimmed to its top 3 by magnitude, so the
pipeline emits times 0.008 s, 0.016 s, 0.012 s — the final list is not
sorted by non-decreasing time. -/
theorem C4_counterexample :
    detectNoteEvents cexSortS cexSortT cexSortF cexSortPf names88 (1 / 10)
        (1 / 20) (1 / 250) (1 / 10) = .ok cexSortOut ∧
      ¬ List.Chain' (fun a b => a.time ≤ b.time) cexSortOut := by
  refine ⟨by with_unfolding_all rfl, fun h => ?_⟩
  simp only [cexSortOut, List.chain'_cons, List.chain'_singleton, and_true] at h
  norm_num at h

/-- C4 (amended): the output of `detect_note_events` is sorted by
non-decreasing time whenever no resolver window keeps more than 3
strong events (then the resolver only deletes from the stable time
sort); a trimmed window instead emits its three survivors in descending
magnitude order, which can locally violate time order. -/
theorem C4_output_sorted_unless_trimmed (S : List (List ℚ))
    (t f pf : List ℚ) (names : List String) (ht pr g mm : ℚ)
    (out : List NoteEvent)
    (hok : detectNoteEvents S t f pf names ht pr g mm = .ok out)
    (hnt : ∀ W ∈ windowsOf (sortBy (fun b a => b.time < a.time)
      (rawEventsOf S t f pf names ht pr mm
        ((distParam g (t.getD 1 0 - t.getD 0 0)).toNat))),
      (strongOf W).length ≤ 3) :
    List.Pairwise (fun a b => a.time ≤ b.time) out := by
  rw [detect_ok_inv hok]
  have hs := pairwise_time_sortBy (rawEventsOf S t f pf names ht pr mm
    ((distParam g (t.getD 1 0 - t.getD 0 0)).toNat))
  have hsub := harmonicFilter_sublist _ hnt
  exact (hs.sublist hsub).map stripIdx (fun a b hab => hab)

/-- C4, witness for the amended statement on the window-cap example,
where both resolver windows are within the cap. -/
theorem C4_output_sorted_unless_trimmed_witness :
    detectNoteEvents cexWinS cexWinT cexWinF cexWinPf names88 (1 / 10)
        (1 / 20) (1 / 250) (1 / 10) = .ok cexWinOut ∧
      List.Pairwise (fun a b => a.time ≤ b.time) cexWinOut :=
  ⟨by with_unfolding_all rfl,
    C4_output_sorted_unless_trimmed cexWinS cexWinT cexWinF cexWinPf names88
      (1 / 10) (1 / 20) (1 / 250) (1 / 10) cexWinOut
      (by with_unfolding_all rfl)
      (of_decide_eq_true (by with_unfolding_all rfl))⟩

/-- C6, counterexample: the pipeline output on `cexWinS` contains four
events that lie pairwise within 30 ms of each other (a sublist of the
output), because the forward-chained resolver windows cap each window
separately and events of adjacent windows can be arbitrarily close. -/
theorem C6_counterexample :
    detectNoteEvents cexWinS cexWinT cexWinF cexWinPf names88 (1 / 10)
        (1 / 20) (1 / 250) (1 / 10) = .ok cexWinOut ∧
      cexWinSub.Sublist cexWinOut ∧
      (∀ a ∈ cexWinSub, ∀ b ∈ cexWinSub, qabs (a.time - b.time) < 3 / 100) ∧
      3 < cexWinSub.length :=
  ⟨by with_unfolding_all rfl, of_decide_eq_true (by with_unfolding_all rfl),
    of_decide_eq_true (by with_unfolding_all rfl),
    of_decide_eq_true (by with_unfolding_all rfl)⟩

/-- C6 (amended): the cap is per resolver window, not per arbitrary
30 ms set: the output is the concatenation, in window order, of the
per-window selections; each selection keeps at most 3 events, and (for
a nonnegative spectrogram) every kept event has magnitude at least 0.7
times its selection maximum.  Events of adjacent windows may lie within
30 ms of each other with no joint cap. -/
theorem C6_window_cap_per_window (S : List (List ℚ)) (t f pf : List ℚ)
    (names : List String) (ht pr g mm : ℚ) (out : List NoteEvent)
    (hok : detectNoteEvents S t f pf names ht pr g mm = .ok out)
    (hpos : ∀ row ∈ S, ∀ v ∈ row, 0 ≤ v) :
    out = ((windowsOf (sortBy (fun b a => b.time < a.time)
        (rawEventsOf S t f pf names ht pr mm
          ((distParam g (t.getD 1 0 - t.getD 0 0)).toNat)))).map
        (fun W => (selectWindow W).map stripIdx)).flatten ∧
      ∀ W ∈ windowsOf (sortBy (fun b a => b.time < a.time)
        (rawEventsOf S t f pf names ht pr mm
          ((distParam g (t.getD 1 0 - t.getD 0 0)).toNat))),
        (selectWindow W).length ≤ 3 ∧
        ∀ e ∈ selectWindow W, maxMagOf (selectWindow W) * (7 / 10) ≤ e.magnitude := by
  constructor
  · rw [detect_ok_inv hok]
    unfold harmonicFilter
    rw [map_flatten_eq, List.map_map]
    rfl
  · intro W hW
    refine ⟨selectWindow_length_le W, selectWindow_mag W ?_⟩
    intro e he
    have hsorted : e ∈ sortBy (fun b a => b.time < a.time)
        (rawEventsOf S t f pf names ht pr mm
          ((distParam g (t.getD 1 0 - t.getD 0 0)).toNat)) := by
      unfold windowsOf at hW
      exact mem_windowsOfGo _ _ W hW e he
    have hraw := mem_sortBy.mp hsorted
    rcases mem_rawEventsOf hraw with ⟨idx, k, _, _, _, rfl⟩
    exact noteSeries_getD_nonneg hpos

/-- C6, witness for the amended statement on the one-bin example. -/
theorem C6_window_cap_per_window_witness :
    witOut = ((windowsOf (sortBy (fun b a => b.time < a.time)
        (rawEventsOf witS witT [0] witPf names88 (1 / 10) (1 / 20) (1 / 10)
          ((distParam (1 / 100) (witT.getD 1 0 - witT.getD 0 0)).toNat)))).map
        (fun W => (selectWindow W).map stripIdx)).flatten ∧
      ∀ W ∈ windowsOf (sortBy (fun b a => b.time < a.time)
        (rawEventsOf witS witT [0] witPf names88 (1 / 10) (1 / 20) (1 / 10)
          ((distParam (1 / 100) (witT.getD 1 0 - witT.getD 0 0)).toNat))),
        (selectWindow W).length ≤ 3 ∧
        ∀ e ∈ selectWindow W, maxMagOf (selectWindow W) * (7 / 10) ≤ e.magnitude :=
  C6_window_cap_per_window witS witT [0] witPf names88 (1 / 10) (1 / 20)
    (1 / 100) (1 / 10) witOut (by with_unfolding_all rfl)
    (of_decide_eq_true (by with_unfolding_all rfl))


/-- On a plateau-free signal (no two adjacent equal samples) the
local-maxima scan of scipy reports exactly the strict local maxima in
ascending order: the filtered index range. -/
theorem lmScanGo_eq_filter (s : List ℚ)
    (hnp : ∀ k, k + 1 < s.length → s.getD k 0 ≠ s.getD (k + 1) 0) :
    ∀ (fuel i : ℕ), 1 ≤ i → s.length - 1 - i ≤ fuel →
      lmScanGo s (s.length - 1) fuel i =
        (List.range' i (s.length - 1 - i)).filter
          (fun k => decide (1 ≤ k) && decide (k + 1 < s.length) &&
            decide (s.getD (k - 1) 0 < s.getD k 0) &&
            decide (s.getD (k + 1) 0 < s.getD k 0)) := by
  intro fuel
  induction fuel with
  | zero =>
      intro i h1 hf
      rw [Nat.le_zero.mp hf]
      rfl
  | succ fuel ih =>
      intro i h1 hf
      simp only [lmScanGo]
      by_cases hi : i < s.length - 1
      case neg =>
        rw [if_neg hi]
        rw [show s.length - 1 - i = 0 by omega]
        rfl
      case pos =>
        rw [if_pos hi]
        have hi1 : i + 1 < s.length := by omega
        have hpe : plateauEnd s (s.length - 1) (s.getD i 0) (i + 1) = i + 1 := by
          unfold plateauEnd
          cases hfe : s.length - 1 - (i + 1) with
          | zero => rfl
          | succ m =>
              rw [plateauEndGo, if_neg]
              rintro ⟨hlt2, heq⟩
              exact hnp i hi1 heq.symm
        rw [hpe]
        have hmid : (i + (i + 1 - 1)) / 2 = i := by omega
        rw [hmid]
        have hrng : List.range' i (s.length - 1 - i) =
            i :: List.range' (i + 1) (s.length - 1 - (i + 1)) := by
          rw [show s.length - 1 - i = (s.length - 1 - (i + 1)) + 1 by omega,
            List.range'_succ]
        rw [hrng, List.filter_cons]
        by_cases hasc : s.getD (i - 1) 0 < s.getD i 0
        case pos =>
          rw [if_pos hasc]
          by_cases hdesc : s.getD (i + 1) 0 < s.getD i 0
          case pos =>
            rw [if_pos hdesc]
            have hPi : (decide (1 ≤ i) && decide (i + 1 < s.length) &&
                decide (s.getD (i - 1) 0 < s.getD i 0) &&
                decide (s.getD (i + 1) 0 < s.getD i 0)) = true := by
              simp only [Bool.and_eq_true, decide_eq_true_eq]
              exact ⟨⟨⟨h1, hi1⟩, hasc⟩, hdesc⟩
            rw [hPi, if_pos rfl]
            congr 1
            rw [ih (i + 2) (by omega) (by omega)]
            rcases Nat.lt_or_ge (i + 1) (s.length - 1) with hlt | hge
            · have hrng2 : List.range' (i + 1) (s.length - 1 - (i + 1)) =
                  (i + 1) :: List.range' (i + 2) (s.length - 1 - (i + 2)) := by
                rw [show s.length - 1 - (i + 1) =
                  (s.length - 1 - (i + 2)) + 1 by omega, List.range'_succ]
              rw [hrng2, List.filter_cons, if_neg]
              simp only [Bool.and_eq_true, decide_eq_true_eq]
              rintro ⟨⟨⟨-, -⟩, hup⟩, -⟩
              simp only [Nat.add_sub_cancel] at hup
              exact absurd hup (not_lt.mpr (le_of_lt hdesc))
            · rw [show s.length - 1 - (i + 1) = 0 by omega,
                show s.length - 1 - (i + 2) = 0 by omega]
              rfl
          case neg =>
            rw [if_neg hdesc]
            have hPi : (decide (1 ≤ i) && decide (i + 1 < s.length) &&
                decide (s.getD (i - 1) 0 < s.getD i 0) &&
                decide (s.getD (i + 1) 0 < s.getD i 0)) = false := by
              simp only [Bool.and_eq_false_iff, decide_eq_false_iff_not]
              tauto
            rw [hPi, if_neg (by simp)]
            exact ih (i + 1) (by omega) (by omega)
        case neg =>
          rw [if_neg hasc]
          have hPi : (decide (1 ≤ i) && decide (i + 1 < s.length) &&
              decide (s.getD (i - 1) 0 < s.getD i 0) &&
              decide (s.getD (i + 1) 0 < s.getD i 0)) = false := by
            simp only [Bool.and_eq_false_iff, decide_eq_false_iff_not]
            tauto
          rw [hPi, if_neg (by simp)]
          exact ih (i + 1) (by omega) (by omega)

/-- On a plateau-free signal the candidate stage of the pipeline
detector equals the strict-local-maximum candidates of the
specification. -/
theorem localMaxima_eq_strictCandidates (s : List ℚ)
    (hnp : ∀ k, k + 1 < s.length → s.getD k 0 ≠ s.getD (k + 1) 0) :
    localMaxima s = strictCandidates s := by
  unfold localMaxima strictCandidates
  rw [lmScanGo_eq_filter s hnp (s.length - 1) 1 (le_refl 1) (by omega)]
  rcases Nat.lt_or_ge s.length 2 with h2 | h2
  · rw [show s.length - 1 - 1 = 0 by omega]
    cases hn : s.length with
    | zero => rfl
    | succ n =>
        have hn1 : n = 0 := by omega
        subst hn1
        simp [List.range_succ]
  · have hr : List.range s.length = 0 :: List.range' 1 (s.length - 1) := by
      rw [List.range_eq_range',
        show s.length = (s.length - 1) + 1 by omega, List.range'_succ]
      simp
    rw [hr, List.filter_cons, if_neg (by simp)]
    have hsplit : List.range' 1 (s.length - 1) =
        List.range' 1 (s.length - 2) ++ [s.length - 1] := by
      rw [show s.length - 1 = (s.length - 2) + 1 by omega, List.range'_concat]
      congr 2
      omega
    rw [hsplit, List.filter_append]
    have hlast : ([s.length - 1] : List ℕ).filter
        (fun k => decide (1 ≤ k) && decide (k + 1 < s.length) &&
          decide (s.getD (k - 1) 0 < s.getD k 0) &&
          decide (s.getD (k + 1) 0 < s.getD k 0)) = [] := by
      simp only [List.filter_cons, List.filter_nil]
      rw [if_neg]
      simp only [Bool.and_eq_true, decide_eq_true_eq]
      rintro ⟨⟨⟨-, hup⟩, -⟩, -⟩
      omega
    rw [hlast, List.append_nil,
      show s.length - 1 - 1 = s.length - 2 by omega]

/-- C5 (amended): on plateau-free signals (no two adjacent equal
samples) the pipeline detector equals the reference algorithm with the
filter order changed to: height filter first, then greedy distance
resolution by descending height (rightmost wins equal heights), then
the prominence filter.  Candidates are the strict local maxima as the
specification states. -/
theorem C5_detector_amended (s : List ℚ) (ht pr : ℚ) (d : ℕ)
    (hnp : ∀ k, k + 1 < s.length → s.getD k 0 ≠ s.getD (k + 1) 0) :
    findPeaks s ht pr d = refPeakDetectAmended s ht pr d := by
  simp only [findPeaks, refPeakDetectAmended,
    localMaxima_eq_strictCandidates s hnp]

/-- C5, witness for the amended statement on the plateau-free signal
of the counterexample. -/
theorem C5_detector_amended_witness :
    findPeaks [9 / 10, 1, 2 / 10, 95 / 100, 0] (1 / 100) (3 / 10) 3 =
      refPeakDetectAmended [9 / 10, 1, 2 / 10, 95 / 100, 0] (1 / 100)
        (3 / 10) 3 :=
  C5_detector_amended [9 / 10, 1, 2 / 10, 95 / 100, 0] (1 / 100) (3 / 10) 3
    (by
      intro k hk
      have hk4 : k < 4 := by
        simp only [List.length_cons, List.length_nil] at hk
        omega
      interval_cases k <;>
        exact of_decide_eq_true (by with_unfolding_all rfl))


end NoteExtract
